import Mathlib

/-!
Verification of the HR Nexus conversational query-orchestration pipeline.

The repository snapshot contains the UI (React/TypeScript), the SQL schema
and the architecture documents; the Python backend that implements the
pipeline itself (intent classification, routing, retrieval, tool dispatch,
web search) is described by the specification and the in-repo documents
but its code is not part of the snapshot.  Components whose code is
missing are modelled from the specification; their doc comments say so
explicitly.  The UI and SQL components are embedded directly from the
source files.
-/

namespace HRNexus

/-- Intent labels: exactly the four string enum values of the pipeline. -/
inductive Intent where
  | conversation
  | documentation
  | data_query
  | web_search
deriving DecidableEq, Repr, Fintype

/-- The four terminal handlers reachable from the Router. -/
inductive Handler where
  | conversationalResponder
  | knowledgeRetriever
  | structuredDataQueryEngine
  | webSearchResponder
deriving DecidableEq, Repr, Fintype

/-- Modelled from the spec: the Router of section 4.3 (the LangGraph
conditional-routing code is not in the repository snapshot).  A pure
dispatch function from the Intent label to one of the four terminal
handlers. -/
def route : Intent → Handler
  | .conversation => .conversationalResponder
  | .documentation => .knowledgeRetriever
  | .data_query => .structuredDataQueryEngine
  | .web_search => .webSearchResponder

/-- Error classes of the external LLM completion service. -/
inductive CompletionError where
  | rateLimited
  | timeout
  | unavailable
  | unknown
deriving DecidableEq, Repr

/-- Whitespace test used by the label trimming below. -/
def isWS (c : Char) : Bool := c == ' ' || c == '\t' || c == '\n' || c == '\r'

/-- Drop leading and trailing whitespace from a character list. -/
def trimChars (l : List Char) : List Char :=
  ((l.dropWhile isWS).reverse.dropWhile isWS).reverse

/-- Modelled from the spec: case-normalization applied by the classifier
to the raw completion text before the allow-list match (trim surrounding
whitespace, lowercase). -/
def normalizeLabel (s : String) : String :=
  String.mk ((trimChars s.data).map Char.toLower)

/-- The strict allow-list of classifier labels. -/
def allowedLabels : List String :=
  ["conversation", "documentation", "data_query", "web_search"]

/-- Strict allow-list match from a normalized label to the Intent enum. -/
def labelToIntent (s : String) : Option Intent :=
  if s = "conversation" then some .conversation
  else if s = "documentation" then some .documentation
  else if s = "data_query" then some .data_query
  else if s = "web_search" then some .web_search
  else none

/-- Modelled from the spec: the Intent Classifier postprocessing of
section 4.2 (the classifier node code is not in the repository snapshot).
It receives either an upstream error or the raw completion text,
case-normalizes the text and maps it through the allow-list; anything
else falls back to the defensive default label data_query. -/
def classifyResult (r : Except CompletionError String) : Intent :=
  match r with
  | .error _ => .data_query
  | .ok raw =>
    match labelToIntent (normalizeLabel raw) with
    | some i => i
    | none => .data_query

theorem labelToIntent_eq_none {s : String} (h : s ∉ allowedLabels) :
    labelToIntent s = none := by
  simp only [allowedLabels, List.mem_cons, List.not_mem_nil, or_false,
    not_or] at h
  obtain ⟨h1, h2, h3, h4⟩ := h
  simp [labelToIntent, h1, h2, h3, h4]

/-- C1: the Router dispatches every Intent to exactly one of the four
terminal handlers, as a deterministic one-to-one function, with the
mapping conversation to ConversationalResponder, documentation to
KnowledgeRetriever, data_query to StructuredDataQueryEngine and
web_search to WebSearchResponder; totality of the function means no
query is left unrouted. -/
theorem router_dispatch_bijective :
    Function.Bijective route ∧
    route .conversation = .conversationalResponder ∧
    route .documentation = .knowledgeRetriever ∧
    route .data_query = .structuredDataQueryEngine ∧
    route .web_search = .webSearchResponder := by
  refine ⟨⟨?_, ?_⟩, rfl, rfl, rfl, rfl⟩
  · decide
  · decide

/-- C2: if the completion service errors, or returns a string (empty or
not) whose normalization is outside the four-label allow-list, the
classifier yields the default label data_query. -/
theorem classifier_default_on_failure (r : Except CompletionError String)
    (h : ∀ s, r = Except.ok s → normalizeLabel s ∉ allowedLabels) :
    classifyResult r = Intent.data_query := by
  cases r with
  | error e => rfl
  | ok raw =>
    have hr := h raw rfl
    simp [classifyResult, labelToIntent_eq_none hr]

/-- Witness for C2 at the concrete input of an empty completion
response. -/
theorem classifier_default_on_failure_witness :
    classifyResult (Except.ok "") = Intent.data_query :=
  classifier_default_on_failure (Except.ok "")
    (by intro s hs; injection hs with h; subst h; decide)

/-- The six allowed search operators (PROJECT_PRESENTATION.md, slide 14). -/
inductive Operator where
  | equals
  | contains
  | greater_than
  | less_than
  | greater_equal
  | less_equal
deriving DecidableEq, Repr

/-- Strict parse of an operator string into the allowed set; any other
string, in particular "between", is rejected. -/
def parseOperator (s : String) : Option Operator :=
  if s = "equals" then some .equals
  else if s = "contains" then some .contains
  else if s = "greater_than" then some .greater_than
  else if s = "less_than" then some .less_than
  else if s = "greater_equal" then some .greater_equal
  else if s = "less_equal" then some .less_equal
  else none

/-- A registered tool: its unique name (the parameter schema is the same
key, value, operator triple for every tool). -/
structure ToolSpec where
  name : String
deriving DecidableEq, Repr

/-- The seven registered search tools (PROJECT_PRESENTATION.md,
slides 13 and 14). -/
def toolRegistry : List ToolSpec :=
  [⟨"search_emps_by_key_tool"⟩,
   ⟨"search_jira_tickets_tool"⟩,
   ⟨"search_deployments_tool"⟩,
   ⟨"search_projects_tool"⟩,
   ⟨"search_sprints_tool"⟩,
   ⟨"search_meetings_tool"⟩,
   ⟨"search_services_tool"⟩]

/-- A candidate ToolCall as parsed from the LLM response: the tool name
and the three schema parameters, each possibly missing. -/
structure ToolCall where
  tool : String
  key : Option String
  value : Option String
  op : Option String
deriving DecidableEq, Repr

/-- A ToolCall that passed validation: every parameter bound and the
operator inside the allowed set. -/
structure ValidCall where
  tool : String
  key : String
  value : String
  op : Operator
deriving DecidableEq, Repr

/-- Reasons a candidate ToolCall is dropped. -/
inductive DropReason where
  | unknownTool
  | badOperator
  | missingParam
deriving DecidableEq, Repr

/-- Whether a tool name is registered. -/
def toolRegistered (reg : List ToolSpec) (n : String) : Bool :=
  reg.any (fun t => t.name == n)

/-- Modelled from the spec: validation of a candidate ToolCall in the
Structured Data Query Engine, step 3 of section 4.6 (the engine code is
not in the repository snapshot).  Checks that the tool name is
registered, that the operator parses into the allowed set and that the
required parameters are present; invalid calls are rejected with a
recorded reason. -/
def validateCall (reg : List ToolSpec) (c : ToolCall) :
    Except DropReason ValidCall :=
  if toolRegistered reg c.tool then
    match c.op with
    | none => .error .missingParam
    | some opStr =>
      match parseOperator opStr with
      | none => .error .badOperator
      | some op =>
        match c.key, c.value with
        | some k, some v => .ok ⟨c.tool, k, v, op⟩
        | _, _ => .error .missingParam
  else .error .unknownTool

/-- Modelled from the spec: the dispatch loop of the Structured Data
Query Engine, steps 3 to 5 of section 4.6.  Each candidate call is
validated; valid calls are executed (the executor is passed in as a
function) in proposal order, invalid ones are dropped with their reason
and execution continues with the remainder.  The first component is the
ordered list of executed calls with their raw result sets, the second
the dropped calls. -/
def runCalls (reg : List ToolSpec) (exec : ValidCall → List String) :
    List ToolCall → List (ToolCall × List String) × List (ToolCall × DropReason)
  | [] => ([], [])
  | c :: rest =>
    let r := runCalls reg exec rest
    match validateCall reg c with
    | .ok v => ((c, exec v) :: r.1, r.2)
    | .error reason => (r.1, (c, reason) :: r.2)

/-- The raw aggregate the engine hands to the downstream formatter. -/
inductive EngineResult where
  | noMatchingRecords
  | results (outs : List (String × List String))
deriving DecidableEq, Repr

/-- Modelled from the spec: step 6 of section 4.6 — if no valid
ToolCalls were produced, or all executions returned empty sets, the
engine returns the explicit no-matching-records marker. -/
def engineResult (reg : List ToolSpec) (exec : ValidCall → List String)
    (calls : List ToolCall) : EngineResult :=
  let outs := (runCalls reg exec calls).1.map (fun p => (p.1.tool, p.2))
  if outs.isEmpty || outs.all (fun o => o.2.isEmpty) then .noMatchingRecords
  else .results outs

theorem except_isOk_error {ε α : Type} (e : ε) :
    (Except.error e : Except ε α).isOk = false := rfl

theorem except_isOk_ok {ε α : Type} (a : α) :
    (Except.ok a : Except ε α).isOk = true := rfl

theorem mem_runCalls_executed {reg exec calls} {c : ToolCall}
    {res : List String} (h : (c, res) ∈ (runCalls reg exec calls).1) :
    (validateCall reg c).isOk = true := by
  induction calls with
  | nil => simp [runCalls] at h
  | cons d rest ih =>
    simp only [runCalls] at h
    rcases hv : validateCall reg d with reason | v
    · rw [hv] at h
      exact ih h
    · rw [hv] at h
      rcases List.mem_cons.mp h with h1 | h1
      · injection h1 with hc hres
        rw [hc, hv]
        rfl
      · exact ih h1

/-- C3: a candidate ToolCall whose tool name is unregistered, or whose
operator is missing or fails the allowed-set parse (in particular the
operator "between"), or with a missing key or value parameter, fails
validation and never appears among the executed calls of any engine
run. -/
theorem invalid_toolcall_never_executed (reg : List ToolSpec)
    (exec : ValidCall → List String) (calls : List ToolCall) (c : ToolCall)
    (h : toolRegistered reg c.tool = false ∨
         c.op = none ∨ c.key = none ∨ c.value = none ∨
         (∃ s, c.op = some s ∧ parseOperator s = none)) :
    (validateCall reg c).isOk = false ∧
    ∀ res, (c, res) ∉ (runCalls reg exec calls).1 := by
  obtain ⟨t, k, v, o⟩ := c
  dsimp only at h
  have hval : (validateCall reg ⟨t, k, v, o⟩).isOk = false := by
    cases hreg : toolRegistered reg t with
    | false => simp [validateCall, hreg, except_isOk_error]
    | true =>
      rcases h with h | h | h | h | ⟨s, hs, hps⟩
      · rw [hreg] at h
        exact absurd h (by decide)
      · cases h
        simp [validateCall, hreg, except_isOk_error]
      · cases h
        rcases o with - | s
        · simp [validateCall, hreg, except_isOk_error]
        · rcases hps : parseOperator s with - | op
          · simp [validateCall, hreg, hps, except_isOk_error]
          · simp [validateCall, hreg, hps, except_isOk_error]
      · cases h
        rcases o with - | s
        · simp [validateCall, hreg, except_isOk_error]
        · rcases hps : parseOperator s with - | op
          · simp [validateCall, hreg, hps, except_isOk_error]
          · rcases k with - | k0
            · simp [validateCall, hreg, hps, except_isOk_error]
            · simp [validateCall, hreg, hps, except_isOk_error]
      · cases hs
        simp [validateCall, hreg, hps, except_isOk_error]
  refine ⟨hval, fun res hmem => ?_⟩
  have := mem_runCalls_executed hmem
  rw [hval] at this
  exact Bool.false_ne_true this

/-- Witness for C3: the call proposing the operator "between" against
the registered personnel tool is dropped, on the concrete run whose
proposal list is that single call. -/
theorem invalid_toolcall_never_executed_witness :
    (validateCall toolRegistry
      ⟨"search_emps_by_key_tool", some "department", some "Engineering",
        some "between"⟩).isOk = false ∧
    ∀ res, (⟨"search_emps_by_key_tool", some "department",
      some "Engineering", some "between"⟩, res) ∉
        (runCalls toolRegistry (fun _ => [])
          [⟨"search_emps_by_key_tool", some "department", some "Engineering",
            some "between"⟩]).1 :=
  invalid_toolcall_never_executed toolRegistry (fun _ => [])
    [⟨"search_emps_by_key_tool", some "department", some "Engineering",
      some "between"⟩]
    ⟨"search_emps_by_key_tool", some "department", some "Engineering",
      some "between"⟩
    (Or.inr (Or.inr (Or.inr (Or.inr ⟨"between", rfl, by decide⟩))))

theorem runCalls_all_valid {reg exec calls}
    (h : ∀ c ∈ calls, (validateCall reg c).isOk = true) :
    ((runCalls reg exec calls).1.map Prod.fst = calls ∧
     (runCalls reg exec calls).2 = []) := by
  induction calls with
  | nil => simp [runCalls]
  | cons d rest ih =>
    have hd := h d (List.mem_cons_self d rest)
    obtain ⟨ih1, ih2⟩ := ih (fun c hc => h c (List.mem_cons_of_mem d hc))
    rcases hv : validateCall reg d with reason | v
    · rw [hv] at hd
      simp [except_isOk_error] at hd
    · simp [runCalls, hv, ih1, ih2]

theorem runCalls_append {reg exec xs ys} :
    runCalls reg exec (xs ++ ys) =
      ((runCalls reg exec xs).1 ++ (runCalls reg exec ys).1,
       (runCalls reg exec xs).2 ++ (runCalls reg exec ys).2) := by
  induction xs with
  | nil => simp [runCalls]
  | cons d rest ih =>
    rcases hv : validateCall reg d with reason | v
    · simp [runCalls, hv, ih]
    · simp [runCalls, hv, ih]

/-- C5: when the proposed calls are some valid calls with one malformed
call in between, only the malformed call is dropped: every other call is
still executed, the executed list preserves the proposal order, and the
malformed call is the only dropped one. -/
theorem malformed_call_dropped_others_run (reg : List ToolSpec)
    (exec : ValidCall → List String) (pre post : List ToolCall)
    (bad : ToolCall) (reason : DropReason)
    (hbad : validateCall reg bad = .error reason)
    (hpre : ∀ c ∈ pre, (validateCall reg c).isOk = true)
    (hpost : ∀ c ∈ post, (validateCall reg c).isOk = true) :
    (runCalls reg exec (pre ++ bad :: post)).1.map Prod.fst = pre ++ post ∧
    (runCalls reg exec (pre ++ bad :: post)).2 = [(bad, reason)] := by
  obtain ⟨hpre1, hpre2⟩ := @runCalls_all_valid reg exec pre hpre
  obtain ⟨hpost1, hpost2⟩ := @runCalls_all_valid reg exec post hpost
  have hmid : runCalls reg exec (bad :: post) =
      ((runCalls reg exec post).1, (bad, reason) :: (runCalls reg exec post).2) := by
    simp [runCalls, hbad]
  rw [runCalls_append]
  constructor
  · rw [hmid]
    simp [hpre1, hpost1]
  · rw [hmid]
    simp [hpre2, hpost2]

/-- Witness for C5: a concrete run with one valid call before and one
after a malformed call whose operator is "between". -/
theorem malformed_call_dropped_others_run_witness :
    (runCalls toolRegistry (fun _ => ["r"])
      ([⟨"search_emps_by_key_tool", some "department", some "Engineering",
          some "equals"⟩] ++
        ⟨"search_jira_tickets_tool", some "status", some "open",
          some "between"⟩ ::
        [⟨"search_projects_tool", some "status", some "active",
          some "equals"⟩])).1.map Prod.fst =
      [⟨"search_emps_by_key_tool", some "department", some "Engineering",
          some "equals"⟩] ++
        [⟨"search_projects_tool", some "status", some "active",
          some "equals"⟩] ∧
    (runCalls toolRegistry (fun _ => ["r"])
      ([⟨"search_emps_by_key_tool", some "department", some "Engineering",
          some "equals"⟩] ++
        ⟨"search_jira_tickets_tool", some "status", some "open",
          some "between"⟩ ::
        [⟨"search_projects_tool", some "status", some "active",
          some "equals"⟩])).2 =
      [(⟨"search_jira_tickets_tool", some "status", some "open",
          some "between"⟩, DropReason.badOperator)] :=
  malformed_call_dropped_others_run toolRegistry (fun _ => ["r"])
    [⟨"search_emps_by_key_tool", some "department", some "Engineering",
        some "equals"⟩]
    [⟨"search_projects_tool", some "status", some "active", some "equals"⟩]
    ⟨"search_jira_tickets_tool", some "status", some "open", some "between"⟩
    DropReason.badOperator
    rfl
    (by decide)
    (by decide)

/-- A document chunk as stored in the vector index. -/
structure DocumentChunk where
  source : String
  text : String
deriving DecidableEq, Repr

/-- One entry of a RetrievalResult: the original index of the scored
chunk in the raw similarity-search output, the chunk and its score. -/
structure Scored where
  idx : Nat
  chunk : DocumentChunk
  score : ℚ
deriving DecidableEq, Repr

/-- Ranking order of scored chunks: higher score first, ties broken by
the original index order. -/
def scoredLE (a b : Scored) : Bool :=
  decide (b.score < a.score ∨ (a.score = b.score ∧ a.idx ≤ b.idx))

/-- The fixed retrieval depth k = 3 (PROJECT_PRESENTATION.md, slide 12:
similarity search with the 3 most relevant chunks). -/
def kTop : Nat := 3

/-- Modelled from the spec: ordering of the similarity-search output by
descending score with ties broken by original index (section 3,
RetrievalResult; the retrieval code is not in the repository
snapshot). -/
def rankChunks (raw : List (DocumentChunk × ℚ)) : List Scored :=
  (raw.enum.map (fun p => ⟨p.1, p.2.1, p.2.2⟩)).mergeSort scoredLE

/-- Modelled from the spec: the top-k cut of the ranked chunks, the
RetrievalResult handed to answer synthesis. -/
def retrieveTopK (raw : List (DocumentChunk × ℚ)) : List Scored :=
  (rankChunks raw).take kTop

theorem scoredLE_total (a b : Scored) :
    (scoredLE a b || scoredLE b a) = true := by
  simp only [scoredLE, Bool.or_eq_true, decide_eq_true_eq]
  rcases lt_trichotomy a.score b.score with h | h | h
  · exact Or.inr (Or.inl h)
  · rcases Nat.le_total a.idx b.idx with hi | hi
    · exact Or.inl (Or.inr ⟨h, hi⟩)
    · exact Or.inr (Or.inr ⟨h.symm, hi⟩)
  · exact Or.inl (Or.inl h)

theorem scoredLE_trans (a b c : Scored) (hab : scoredLE a b = true)
    (hbc : scoredLE b c = true) : scoredLE a c = true := by
  simp only [scoredLE, decide_eq_true_eq] at hab hbc ⊢
  rcases hab with h1 | ⟨h1, hi1⟩
  · rcases hbc with h2 | ⟨h2, hi2⟩
    · exact Or.inl (h2.trans h1)
    · exact Or.inl (h2 ▸ h1)
  · rcases hbc with h2 | ⟨h2, hi2⟩
    · exact Or.inl (h1.symm ▸ h2)
    · exact Or.inr ⟨h1.trans h2, hi1.trans hi2⟩

/-- C4: every RetrievalResult has at most k = 3 entries, its scores are
monotonically non-increasing by index, ties are broken by the original
index order, and every entry is one of the raw similarity pairs at its
recorded original index. -/
theorem retrieval_topk_sorted (raw : List (DocumentChunk × ℚ)) :
    (retrieveTopK raw).length ≤ 3 ∧
    List.Pairwise
      (fun a b => b.score ≤ a.score ∧ (a.score = b.score → a.idx ≤ b.idx))
      (retrieveTopK raw) ∧
    ∀ s ∈ retrieveTopK raw, raw[s.idx]? = some (s.chunk, s.score) := by
  refine ⟨List.length_take_le _ _, ?_, ?_⟩
  · have hs : List.Pairwise (fun a b => scoredLE a b = true) (rankChunks raw) :=
      List.sorted_mergeSort scoredLE_trans scoredLE_total _
    have hp := hs.sublist (List.take_sublist kTop _)
    refine hp.imp ?_
    intro a b hab
    simp only [scoredLE, decide_eq_true_eq] at hab
    rcases hab with h | ⟨h, hi⟩
    · exact ⟨le_of_lt h, fun heq => absurd (heq ▸ h) (lt_irrefl _)⟩
    · exact ⟨le_of_eq h.symm, fun _ => hi⟩
  · intro s hmem
    have hrank : s ∈ rankChunks raw :=
      List.mem_of_mem_take hmem
    have hperm := List.mergeSort_perm
      (raw.enum.map (fun p => (⟨p.1, p.2.1, p.2.2⟩ : Scored))) scoredLE
    have henum : s ∈ raw.enum.map (fun p => (⟨p.1, p.2.1, p.2.2⟩ : Scored)) :=
      hperm.mem_iff.mp hrank
    obtain ⟨⟨i, c, q⟩, hpe, hps⟩ := List.mem_map.mp henum
    obtain ⟨hidx, hchunk, hscore⟩ :
        s.idx = i ∧ s.chunk = c ∧ s.score = q := by
      constructor
      · exact congrArg Scored.idx hps.symm
      constructor
      · exact congrArg Scored.chunk hps.symm
      · exact congrArg Scored.score hps.symm
    have := List.mem_enum_iff_getElem?.mp hpe
    rw [hidx, hchunk, hscore]
    exact this

/-- A web search hit. -/
structure SearchHit where
  title : String
  url : String
  snippet : String
deriving DecidableEq, Repr

/-- Outcome of the external search provider call: failure, or a hit
list. -/
inductive SearchOutcome where
  | failure
  | hits (hs : List SearchHit)
deriving DecidableEq, Repr

/-- The explicit fallback answer of the Web Search Responder. -/
def webSearchFallback : String :=
  "Web search is unavailable or returned no results."

/-- Context line for one hit: title, url and snippet. -/
def hitContext (h : SearchHit) : String :=
  h.title ++ " (" ++ h.url ++ "): " ++ h.snippet

/-- Context block over all hits. -/
def buildSearchContext (hs : List SearchHit) : String :=
  String.intercalate "\n" (hs.map hitContext)

/-- Result of the Web Search Responder together with whether an LLM
completion call was made. -/
structure WebResponse where
  text : String
  completionCalled : Bool
deriving DecidableEq, Repr

/-- Modelled from the spec: the Web Search Responder of section 4.7
(the responder code is not in the repository snapshot).  On provider
failure or zero hits it answers with the explicit fallback and makes no
completion call; otherwise it issues one completion call over the
context block built from the hits. -/
def respondWebSearch (complete : String → String)
    (outcome : SearchOutcome) : WebResponse :=
  match outcome with
  | .failure => ⟨webSearchFallback, false⟩
  | .hits [] => ⟨webSearchFallback, false⟩
  | .hits hs => ⟨complete (buildSearchContext hs), true⟩

/-- C6: if the search provider call fails or returns zero hits, the Web
Search Responder returns the explicit fallback response and makes no LLM
completion call at all (in particular none with empty context). -/
theorem web_search_fallback_on_empty (complete : String → String)
    (outcome : SearchOutcome)
    (h : outcome = .failure ∨ outcome = .hits []) :
    respondWebSearch complete outcome = ⟨webSearchFallback, false⟩ := by
  rcases h with h | h
  · subst h
    rfl
  · subst h
    rfl

/-- Witness for C6 at the concrete zero-hit outcome. -/
theorem web_search_fallback_on_empty_witness :
    respondWebSearch (fun _ => "llm answer") (SearchOutcome.hits []) =
      ⟨webSearchFallback, false⟩ :=
  web_search_fallback_on_empty (fun _ => "llm answer")
    (SearchOutcome.hits []) (Or.inr rfl)

/-- An externally supplied prior turn: role string, text and a
timestamp used for the chronology check (messages carry created_at in
the schema). -/
structure RawTurn where
  role : String
  text : String
  timestamp : Nat
deriving DecidableEq, Repr

/-- The two recognized roles (database CHECK constraint on messages and
the MessageResponse type of the UI chat service). -/
inductive Role where
  | user
  | assistant
deriving DecidableEq, Repr

/-- A normalized conversation turn. -/
structure Turn where
  role : Role
  text : String
deriving DecidableEq, Repr

/-- Strict parse of a role string. -/
def parseRole (s : String) : Option Role :=
  if s = "user" then some .user
  else if s = "assistant" then some .assistant
  else none

/-- The History Adapter failure. -/
inductive HistoryError where
  | invalidHistory
deriving DecidableEq, Repr

/-- Normalization of one raw turn; on the ok path of the adapter the
role is always recognized, so the default is never observable there. -/
def normTurn (t : RawTurn) : Turn :=
  ⟨(parseRole t.role).getD .user, t.text⟩

/-- Elementwise conversion of the raw turns, failing on the first
unrecognized role. -/
def convTurns : List RawTurn → Option (List Turn)
  | [] => some []
  | t :: rest =>
    match parseRole t.role, convTurns rest with
    | some r, some ts => some (⟨r, t.text⟩ :: ts)
    | _, _ => none

/-- Strict chronology check over adjacent timestamps. -/
def chronological : List RawTurn → Bool
  | [] => true
  | [_] => true
  | a :: b :: rest => decide (a.timestamp < b.timestamp) && chronological (b :: rest)

/-- Modelled from the spec: the History Adapter of section 4.1 (the
adapter code is not in the repository snapshot).  Validates the supplied
prior turns — strict chronology, recognized roles — and either rejects
with InvalidHistoryError or returns the normalized history with the new
user Turn appended; it never reorders. -/
def buildHistory (prior : List RawTurn) (newText : String) :
    Except HistoryError (List Turn) :=
  if chronological prior then
    match convTurns prior with
    | some ts => .ok (ts ++ [⟨.user, newText⟩])
    | none => .error .invalidHistory
  else .error .invalidHistory

theorem parseRole_isSome_iff (s : String) :
    (parseRole s).isSome = true ↔ s = "user" ∨ s = "assistant" := by
  unfold parseRole
  by_cases h1 : s = "user" <;> by_cases h2 : s = "assistant" <;>
    simp [h1, h2]

theorem chronological_iff :
    ∀ l : List RawTurn, chronological l = true ↔
      List.Chain' (fun a b => a.timestamp < b.timestamp) l
  | [] => by simp [chronological]
  | [a] => by simp [chronological]
  | a :: b :: rest => by
    rw [List.chain'_cons, ← chronological_iff (b :: rest)]
    simp [chronological]

theorem convTurns_some (l : List RawTurn)
    (h : ∀ t ∈ l, (parseRole t.role).isSome = true) :
    convTurns l = some (l.map normTurn) := by
  induction l with
  | nil => rfl
  | cons t rest ih =>
    have ht := h t (List.mem_cons_self t rest)
    rcases hp : parseRole t.role with - | r
    · rw [hp] at ht
      cases ht
    · have := ih (fun u hu => h u (List.mem_cons_of_mem t hu))
      simp [convTurns, hp, this, normTurn]

theorem convTurns_none (l : List RawTurn)
    (h : ¬ ∀ t ∈ l, (parseRole t.role).isSome = true) :
    convTurns l = none := by
  induction l with
  | nil => exact absurd (by simp) h
  | cons t rest ih =>
    rcases hp : parseRole t.role with - | r
    · simp [convTurns, hp]
    · have hrest : ¬ ∀ u ∈ rest, (parseRole u.role).isSome = true := by
        intro hall
        refine h ?_
        intro u hu
        rcases List.mem_cons.mp hu with h1 | h1
        · rw [h1, hp]
          rfl
        · exact hall u h1
      simp [convTurns, hp, ih hrest]

/-- C7: the History Adapter rejects with InvalidHistoryError exactly
those prior-turn lists that are not strictly chronological or contain a
role outside user and assistant; on valid input it returns the
normalized turns in their original order with the new user Turn
appended, never reordering. -/
theorem history_adapter_spec (prior : List RawTurn) (newText : String) :
    buildHistory prior newText =
      if List.Chain' (fun a b => a.timestamp < b.timestamp) prior ∧
          (∀ t ∈ prior, t.role = "user" ∨ t.role = "assistant")
      then .ok (prior.map normTurn ++ [⟨.user, newText⟩])
      else .error .invalidHistory := by
  by_cases hc : List.Chain' (fun a b => a.timestamp < b.timestamp) prior
  · by_cases hr : ∀ t ∈ prior, t.role = "user" ∨ t.role = "assistant"
    · rw [if_pos ⟨hc, hr⟩]
      unfold buildHistory
      rw [if_pos ((chronological_iff prior).mpr hc),
        convTurns_some prior
          (fun t ht => (parseRole_isSome_iff _).mpr (hr t ht))]
    · rw [if_neg (by tauto)]
      unfold buildHistory
      by_cases hch : chronological prior = true
      · rw [if_pos hch, convTurns_none prior
          (fun hall => hr (fun t ht => (parseRole_isSome_iff _).mp (hall t ht)))]
      · rw [if_neg hch]
  · rw [if_neg (by tauto)]
    unfold buildHistory
    rw [if_neg (fun hh => hc ((chronological_iff prior).mp hh))]

/-- Lowercasing of a string, character by character (String.toLower of
the TypeScript runtime). -/
def lowerStr (s : String) : String := String.mk (s.data.map Char.toLower)

/-- Suffix test on strings (String.endsWith of the TypeScript
runtime). -/
def strEndsWith (s sfx : String) : Bool := sfx.data.isSuffixOf s.data

/-- Embedded from src/UI/src/components/chat/DocumentUpload.tsx: the
upload constants. -/
def MAX_FILES : Nat := 10

/-- Maximum file size, 10 MB. -/
def MAX_FILE_SIZE : Nat := 10 * 1024 * 1024

/-- The allowed file-name extensions. -/
def ALLOWED_EXTENSIONS : List String := [".txt", ".md", ".json", ".csv", ".pdf"]

/-- The allowed MIME types. -/
def ALLOWED_TYPES : List String :=
  ["text/plain", "text/markdown", "application/json", "text/csv",
   "application/pdf", "application/x-pdf"]

/-- A file offered to the upload dialog: name, MIME type and size in
bytes. -/
structure UFile where
  name : String
  mimeType : String
  size : Nat
deriving DecidableEq, Repr

/-- Embedded from DocumentUpload.tsx, validateFile: returns an error
message for a file with neither an allowed extension (checked on the
lowercased name) nor an allowed MIME type, or whose size exceeds the
10 MB limit; returns none for acceptable files. -/
def validateFile (f : UFile) : Option String :=
  let fileName := lowerStr f.name
  let hasValidExtension := ALLOWED_EXTENSIONS.any (fun ext => strEndsWith fileName ext)
  if !hasValidExtension && !(ALLOWED_TYPES.contains f.mimeType) then
    some (f.name ++ ": Invalid file type. Allowed: .txt, .md, .json, .csv, .pdf")
  else if f.size > MAX_FILE_SIZE then
    some (f.name ++ ": File size exceeds 10MB limit")
  else
    none

/-- Embedded from DocumentUpload.tsx, handleFileSelect: given the
already selected files and the newly offered ones, rejects the whole
selection when it would exceed the batch limit, otherwise appends
exactly the files that pass validateFile, collecting the error messages
of the rest. -/
def handleFileSelect (selected files : List UFile) :
    List UFile × Option String :=
  if selected.length + files.length > MAX_FILES then
    (selected, some "You can only upload up to 10 files at once")
  else
    let validFiles := files.filter (fun f => (validateFile f).isNone)
    let errs := files.filterMap validateFile
    (selected ++ validFiles,
     if errs.isEmpty then none else some (String.intercalate "\n" errs))

/-- C8: a file with no allowed extension on its lowercased name and a
MIME type outside the allowed list, or a file larger than 10 MB, is
never appended to the selected-file list (and hence never reaches
uploadDocument, which iterates over that list); moreover a selection
whose raw count would push the batch over 10 files adds nothing. -/
theorem invalid_file_never_selected (selected files : List UFile)
    (f : UFile)
    (h : ((∀ ext ∈ ALLOWED_EXTENSIONS,
            strEndsWith (lowerStr f.name) ext = false) ∧
          f.mimeType ∉ ALLOWED_TYPES) ∨ f.size > MAX_FILE_SIZE) :
    f ∉ (handleFileSelect selected files).1.drop selected.length ∧
    (selected.length + files.length > MAX_FILES →
      (handleFileSelect selected files).1 = selected) := by
  have hv : (validateFile f).isNone = false := by
    rcases h with ⟨hext, hmime⟩ | hsize
    · have h1 : (ALLOWED_EXTENSIONS.any
          (fun ext => strEndsWith (lowerStr f.name) ext)) = false := by
        rw [List.any_eq_false]
        intro x hx
        rw [hext x hx]
        exact Bool.false_ne_true
      simp [validateFile, h1, hmime]
    · simp [validateFile, hsize, apply_ite Option.isNone]
  unfold handleFileSelect
  by_cases hover : selected.length + files.length > MAX_FILES
  · rw [if_pos hover]
    refine ⟨?_, fun _ => rfl⟩
    rw [List.drop_length]
    exact List.not_mem_nil f
  · rw [if_neg hover]
    refine ⟨?_, fun hh => absurd hh hover⟩
    dsimp only
    rw [List.drop_left]
    intro hmem
    have := (List.mem_filter.mp hmem).2
    rw [hv] at this
    exact Bool.false_ne_true this

/-- Witness for C8 at a concrete disallowed file. -/
theorem invalid_file_never_selected_witness :
    (⟨"malware.exe", "application/octet-stream", 4⟩ : UFile) ∉
      (handleFileSelect []
        [⟨"malware.exe", "application/octet-stream", 4⟩]).1.drop
        ([] : List UFile).length ∧
    (([] : List UFile).length +
        [(⟨"malware.exe", "application/octet-stream", 4⟩ : UFile)].length >
        MAX_FILES →
      (handleFileSelect []
        [⟨"malware.exe", "application/octet-stream", 4⟩]).1 = []) :=
  invalid_file_never_selected []
    [⟨"malware.exe", "application/octet-stream", 4⟩]
    ⟨"malware.exe", "application/octet-stream", 4⟩
    (Or.inl ⟨by decide, by decide⟩)

/-- The slice of a parsed JSON body the error path of apiRequest
inspects: its optional detail field. -/
inductive Json where
  | obj (detail : Option String)
deriving DecidableEq, Repr

/-- Projection of the detail field. -/
def jsonDetail : Json → Option String
  | .obj d => d

/-- An HTTP response as seen by apiRequest: the ok flag, the status
code, and the parsed JSON body (none when the body is not valid
JSON). -/
structure HttpResponse where
  ok : Bool
  status : Nat
  jsonBody : Option Json
deriving DecidableEq, Repr

/-- JavaScript truthiness of the detail field: an absent or empty
detail falls back. -/
def detailOr (d : Option String) (fallback : String) : String :=
  match d with
  | some s => if s = "" then fallback else s
  | none => fallback

/-- Embedded from src/UI/services/api.config.ts: the status-code switch
that builds the error message (403 always uses the fixed permission
message; every other branch prefers the server detail). -/
def errorMessageFor (status : Nat) (detail : Option String) : String :=
  if status = 429 then detailOr detail "Rate limit exceeded. Please try again later."
  else if status = 503 then detailOr detail "Service temporarily unavailable. Please try again in a moment."
  else if status = 500 then detailOr detail "Server error. Please try again later."
  else if status = 401 then detailOr detail "Invalid credentials"
  else if status = 403 then "You do not have permission to access this resource"
  else if status = 404 then detailOr detail "Resource not found"
  else if status = 400 then detailOr detail "Invalid request"
  else detailOr detail "An error occurred"

/-- Embedded from api.config.ts: the detail carried by a non-ok
response; a body that fails to parse is replaced by the fixed
Request-failed detail. -/
def responseDetail (r : HttpResponse) : Option String :=
  match r.jsonBody with
  | some j => jsonDetail j
  | none => some "Request failed"

/-- Embedded from api.config.ts, apiRequest: a non-ok response throws
the built error message, a 204 returns undefined without touching the
body, and otherwise the parsed JSON body is returned. -/
def apiRequest (r : HttpResponse) : Except String (Option Json) :=
  if r.ok = false then
    .error (errorMessageFor r.status (responseDetail r))
  else if r.status = 204 then
    .ok none
  else
    match r.jsonBody with
    | some j => .ok (some j)
    | none => .error "Failed to parse response body"

/-- C9: a non-ok response makes apiRequest throw the error carrying the
server detail or the status-specific fallback and never return a value;
a 204 returns undefined without parsing a body; and a parsed JSON body
is returned only for ok responses. -/
theorem apiRequest_spec (r : HttpResponse) :
    (r.ok = false →
      apiRequest r = .error (errorMessageFor r.status (responseDetail r))) ∧
    (r.ok = true → r.status = 204 → apiRequest r = .ok none) ∧
    (∀ j, apiRequest r = .ok (some j) →
      r.ok = true ∧ r.status ≠ 204 ∧ r.jsonBody = some j) := by
  refine ⟨?_, ?_, ?_⟩
  · intro h
    unfold apiRequest
    rw [if_pos h]
  · intro h1 h2
    unfold apiRequest
    rw [if_neg (by simp [h1]), if_pos h2]
  · intro j hj
    unfold apiRequest at hj
    rcases hok : r.ok with - | -
    · rw [hok, if_pos rfl] at hj
      cases hj
    · rw [hok, if_neg (by simp)] at hj
      by_cases h2 : r.status = 204
      · rw [if_pos h2] at hj
        injection hj with hv
        cases hv
      · rw [if_neg h2] at hj
        rcases hb : r.jsonBody with - | j0
        · rw [hb] at hj
          cases hj
        · rw [hb] at hj
          injection hj with hv
          injection hv with hv2
          exact ⟨rfl, h2, by rw [hv2]⟩

/-- Witness for C9 at a concrete 404 response carrying a server
detail. -/
theorem apiRequest_spec_witness :
    apiRequest ⟨false, 404, some (Json.obj (some "Chat not found"))⟩ =
      Except.error "Chat not found" := by
  have h := (apiRequest_spec
    ⟨false, 404, some (Json.obj (some "Chat not found"))⟩).1 rfl
  rw [h]
  congr 1

/-- A row of the messages table (the columns the feedback constraints
refer to). -/
structure MessageRow where
  id : Nat
  content : String
  role : String
deriving DecidableEq, Repr

/-- A row of the message_feedback table. -/
structure FeedbackRow where
  id : Nat
  message_id : Nat
  rating : Int
deriving DecidableEq, Repr

/-- The part of the database state the message_feedback constraints
range over. -/
structure DBState where
  messages : List MessageRow
  feedback : List FeedbackRow
deriving DecidableEq, Repr

/-- Embedded from src/database/migrations/001_bootcamp_schema.sql: the
constraints of message_feedback — CHECK rating IN -1, 1; NOT NULL
foreign key message_id REFERENCES messages; UNIQUE message_id. -/
def FeedbackWF (db : DBState) : Prop :=
  (∀ f ∈ db.feedback,
    (f.rating = -1 ∨ f.rating = 1) ∧ ∃ m ∈ db.messages, m.id = f.message_id) ∧
  db.feedback.Pairwise (fun a b => a.message_id ≠ b.message_id)

/-- Insertion into message_feedback under the schema constraints: the
row is accepted only if the CHECK, the foreign key and the UNIQUE
constraint hold, mirroring how PostgreSQL rejects a violating INSERT. -/
def insertFeedback (db : DBState) (f : FeedbackRow) : Option DBState :=
  if (f.rating == -1 || f.rating == 1) &&
      db.messages.any (fun m => m.id == f.message_id) &&
      db.feedback.all (fun g => g.message_id != f.message_id) then
    some ⟨db.messages, db.feedback ++ [f]⟩
  else
    none

/-- Deletion of a message: ON DELETE CASCADE removes every feedback row
referencing it. -/
def deleteMessage (db : DBState) (mid : Nat) : DBState :=
  ⟨db.messages.filter (fun m => m.id != mid),
   db.feedback.filter (fun f => f.message_id != mid)⟩

theorem feedback_count_le_one {l : List FeedbackRow} (mid : Nat)
    (h : l.Pairwise (fun a b => a.message_id ≠ b.message_id)) :
    (l.filter (fun f => f.message_id == mid)).length ≤ 1 := by
  induction l with
  | nil => simp
  | cons a rest ih =>
    have hrest := ih (List.Pairwise.sublist (List.sublist_cons_self a rest) h)
    rcases hm : (a.message_id == mid) with - | -
    · simpa [List.filter, hm] using hrest
    · have ha : a.message_id = mid := by
        exact eq_of_beq hm
      have hnone : (rest.filter (fun f => f.message_id == mid)) = [] := by
        rw [List.filter_eq_nil_iff]
        intro b hb
        have := (List.pairwise_cons.mp h).1 b hb
        rw [ha] at this
        simp [this.symm]
      simp [List.filter, hm, hnone]

/-- C10: in every database state satisfying the message_feedback
constraints, each feedback row has rating exactly -1 or 1 and
references an existing message, each message has at most one feedback
row, deleting a message removes every feedback row referencing it while
preserving the constraints, and inserting a row is accepted only into a
state that again satisfies the constraints. -/
theorem message_feedback_invariants (db : DBState) (h : FeedbackWF db) :
    (∀ f ∈ db.feedback, f.rating = -1 ∨ f.rating = 1) ∧
    (∀ f ∈ db.feedback, ∃ m ∈ db.messages, m.id = f.message_id) ∧
    (∀ mid : Nat,
      (db.feedback.filter (fun f => f.message_id == mid)).length ≤ 1) ∧
    (∀ mid : Nat, ∀ f ∈ (deleteMessage db mid).feedback, f.message_id ≠ mid) ∧
    (∀ mid : Nat, FeedbackWF (deleteMessage db mid)) ∧
    (∀ f db2, insertFeedback db f = some db2 → FeedbackWF db2) := by
  obtain ⟨hrows, huniq⟩ := h
  refine ⟨fun f hf => (hrows f hf).1, fun f hf => (hrows f hf).2,
    fun mid => feedback_count_le_one mid huniq, ?_, ?_, ?_⟩
  · intro mid f hf
    have := List.of_mem_filter hf
    simpa using this
  · intro mid
    constructor
    · intro f hf
      have hmem := List.mem_of_mem_filter hf
      have hne : f.message_id ≠ mid := by
        have := List.of_mem_filter hf
        simpa using this
      obtain ⟨hrat, m, hm, hmid⟩ := hrows f hmem
      refine ⟨hrat, m, List.mem_filter.mpr ⟨hm, ?_⟩, hmid⟩
      simp [hmid, hne]
    · exact List.Pairwise.sublist (List.filter_sublist _) huniq
  · intro f db2 hins
    unfold insertFeedback at hins
    by_cases hc : ((f.rating == -1 || f.rating == 1) &&
        db.messages.any (fun m => m.id == f.message_id) &&
        db.feedback.all (fun g => g.message_id != f.message_id)) = true
    · rw [if_pos hc] at hins
      injection hins with hdb2
      obtain ⟨hc1, hc3⟩ := Bool.and_eq_true_iff.mp hc
      obtain ⟨hrat, hex⟩ := Bool.and_eq_true_iff.mp hc1
      subst hdb2
      constructor
      · intro g hg
        rcases List.mem_append.mp hg with hg1 | hg1
        · obtain ⟨hr, m, hm, hmid⟩ := hrows g hg1
          exact ⟨hr, m, hm, hmid⟩
        · have : g = f := by
            cases hg1 with
            | head => rfl
            | tail _ hh => cases hh
          subst this
          constructor
          · rcases Bool.or_eq_true_iff.mp hrat with hr | hr
            · exact Or.inl (eq_of_beq hr)
            · exact Or.inr (eq_of_beq hr)
          · obtain ⟨m, hm, hmid⟩ := List.any_eq_true.mp hex
            exact ⟨m, hm, eq_of_beq hmid⟩
      · rw [List.pairwise_append]
        refine ⟨huniq, List.pairwise_singleton _ _, ?_⟩
        intro a ha b hb
        have hbf : b = f := by
          cases hb with
          | head => rfl
          | tail _ hh => cases hh
        subst hbf
        have := List.all_eq_true.mp hc3 a ha
        simpa using this
    · rw [if_neg hc] at hins
      cases hins

/-- Witness for C10 at a concrete one-message, one-feedback state. -/
theorem message_feedback_invariants_witness :
    (∀ f ∈ (⟨[⟨1, "hello", "user"⟩], [⟨7, 1, 1⟩]⟩ : DBState).feedback,
      f.rating = -1 ∨ f.rating = 1) ∧
    (∀ f ∈ (⟨[⟨1, "hello", "user"⟩], [⟨7, 1, 1⟩]⟩ : DBState).feedback,
      ∃ m ∈ (⟨[⟨1, "hello", "user"⟩], [⟨7, 1, 1⟩]⟩ : DBState).messages,
        m.id = f.message_id) ∧
    (∀ mid : Nat,
      (((⟨[⟨1, "hello", "user"⟩], [⟨7, 1, 1⟩]⟩ : DBState)).feedback.filter
        (fun f => f.message_id == mid)).length ≤ 1) ∧
    (∀ mid : Nat, ∀ f ∈
      (deleteMessage (⟨[⟨1, "hello", "user"⟩], [⟨7, 1, 1⟩]⟩ : DBState)
        mid).feedback, f.message_id ≠ mid) ∧
    (∀ mid : Nat, FeedbackWF
      (deleteMessage (⟨[⟨1, "hello", "user"⟩], [⟨7, 1, 1⟩]⟩ : DBState) mid)) ∧
    (∀ f db2, insertFeedback
        (⟨[⟨1, "hello", "user"⟩], [⟨7, 1, 1⟩]⟩ : DBState) f = some db2 →
      FeedbackWF db2) :=
  message_feedback_invariants ⟨[⟨1, "hello", "user"⟩], [⟨7, 1, 1⟩]⟩
    ⟨by decide, by simp [List.pairwise_singleton]⟩

end HRNexus





